import Mathlib

set_option maxHeartbeats 1000000

/-
Shallow embedding of the GPX heatmap core (src/unnamed/part_001).

JS numbers are modelled by an ordered field: the rationals for the executable
combinatorial parts, the reals where transcendental functions appear
(haversine, Gaussian kernel, gamma correction).  Timestamps are modelled
after Date.parse: an Option value that is some t exactly when the parse
produced a finite number of milliseconds, none otherwise (absent time tag,
empty or unparseable string).  NaN propagation of JS is modelled by Option
at the few places the source can produce it.
-/

/-- A parsed track point: coordinates plus the optional timestamp in
milliseconds (none models an absent or unparseable time string). -/
structure TrackPoint (K : Type) where
  lat : K
  lon : K
  time : Option K
deriving DecidableEq

/- ===== Segmentation engine: splitTrack (source lines 509-583) ===== -/

/-- Loop state of splitTrack: segments pushed so far plus the inactivity
tracking registers. -/
structure SplitState where
  segments : List (List (TrackPoint ℚ))
  segmentStartIdx : ℕ
  inactivityStartIdx : Option ℕ
  inactivityAccumSec : ℚ
  inactivityQualified : Bool
deriving DecidableEq

/-- JS segments.push(seg) guarded by seg.length, exactly as in the source. -/
def pushSeg (segs : List (List (TrackPoint ℚ))) (seg : List (TrackPoint ℚ)) :
    List (List (TrackPoint ℚ)) :=
  if seg.isEmpty then segs else segs ++ [seg]

/-- JS points.slice(a, b). -/
def jsSlice (pts : List (TrackPoint ℚ)) (a b : ℕ) : List (TrackPoint ℚ) :=
  (pts.drop a).take (b - a)

/-- Body of the splitTrack loop at index i, with prev = points[i-1] and
curr = points[i].  gapSec is the inactivity threshold in seconds, none
modelling Infinity (an accumulated finite time never reaches it).  The
distance function is a parameter; the source passes haversineDistance. -/
def splitStep (dist : ℚ → ℚ → ℚ → ℚ → ℚ) (gapSec : Option ℚ)
    (pts : List (TrackPoint ℚ)) (prev curr : TrackPoint ℚ) (i : ℕ)
    (st : SplitState) : SplitState :=
  match prev.time, curr.time with
  | some tp, some tc =>
    let deltaSec : ℚ := (tc - tp) / 1000
    if deltaSec ≤ 0 then
      -- a negative delta forcibly closes the current segment at this point
      if deltaSec < 0 ∧ st.segmentStartIdx < i then
        { segments := pushSeg st.segments (jsSlice pts st.segmentStartIdx i)
          segmentStartIdx := i
          inactivityStartIdx := none
          inactivityAccumSec := 0
          inactivityQualified := false }
      else
        { st with inactivityStartIdx := none, inactivityAccumSec := 0,
                  inactivityQualified := false }
    else
      let distanceKm := dist prev.lat prev.lon curr.lat curr.lon
      let deltaHours := deltaSec / 3600
      -- speedKmh is Infinity when deltaHours is not positive, hence not inactive
      if 0 < deltaHours ∧ distanceKm / deltaHours ≤ 1 then
        let start := match st.inactivityStartIdx with
          | none => i - 1
          | some b => b
        let accum := match st.inactivityStartIdx with
          | none => deltaSec
          | some _ => st.inactivityAccumSec + deltaSec
        let qualified := st.inactivityQualified ||
          (match gapSec with
            | some s => decide (s ≤ accum)
            | none => false)
        { st with inactivityStartIdx := some start, inactivityAccumSec := accum,
                  inactivityQualified := qualified }
      else
        match st.inactivityQualified, st.inactivityStartIdx with
        | true, some breakStart =>
          { segments :=
              if st.segmentStartIdx < breakStart then
                pushSeg st.segments (jsSlice pts st.segmentStartIdx (breakStart + 1))
              else st.segments
            segmentStartIdx := i
            inactivityStartIdx := none
            inactivityAccumSec := 0
            inactivityQualified := false }
        | _, _ =>
          { st with inactivityStartIdx := none, inactivityAccumSec := 0,
                    inactivityQualified := false }
  | _, _ =>
    -- missing or unparseable timestamp: inactivity tracking resets, no cut
    { st with inactivityStartIdx := none, inactivityAccumSec := 0,
              inactivityQualified := false }

/-- Runs splitStep over all consecutive pairs, left to right. -/
def splitLoop (dist : ℚ → ℚ → ℚ → ℚ → ℚ) (gapSec : Option ℚ)
    (pts : List (TrackPoint ℚ)) :
    TrackPoint ℚ → List (TrackPoint ℚ) → ℕ → SplitState → SplitState
  | _, [], _, st => st
  | prev, curr :: rest, i, st =>
    splitLoop dist gapSec pts curr rest (i + 1)
      (splitStep dist gapSec pts prev curr i st)

/-- The normalized gap in seconds: non-positive (or non-finite) gap minutes
become Infinity, modelled as none. -/
def inactivitySecondsOf (gapMinutes : Option ℚ) : Option ℚ :=
  (match gapMinutes with
    | some g => if 0 < g then some g else none
    | none => none).map (· * 60)

/-- The flush after the loop: while inside a qualified break, close before
the break began (dropping the trailing inactive tail); otherwise close with
the remaining tail. -/
def splitFinal (pts : List (TrackPoint ℚ)) (st : SplitState) :
    List (List (TrackPoint ℚ)) :=
  match st.inactivityQualified, st.inactivityStartIdx with
  | true, some b =>
    if st.segmentStartIdx < b then
      pushSeg st.segments (jsSlice pts st.segmentStartIdx (b + 1))
    else st.segments
  | _, _ =>
    if st.segmentStartIdx < pts.length then
      pushSeg st.segments (pts.drop st.segmentStartIdx)
    else st.segments

/-- The raw segments array at the return statement of splitTrack (before the
fallback that returns the whole track when it is empty). -/
def splitTrackSegs (dist : ℚ → ℚ → ℚ → ℚ → ℚ) (pts : List (TrackPoint ℚ))
    (gapMinutes : Option ℚ) : List (List (TrackPoint ℚ)) :=
  match pts with
  | [] => []
  | p :: rest =>
    splitFinal pts
      (splitLoop dist (inactivitySecondsOf gapMinutes) pts p rest 1 ⟨[], 0, none, 0, false⟩)

/-- splitTrack from the source: splits a track at qualified inactivity gaps.
gapMinutes is none for Infinity; non-positive or non-finite gaps normalize to
Infinity.  Returns [points] when the loop emitted no segments. -/
def splitTrack (dist : ℚ → ℚ → ℚ → ℚ → ℚ) (pts : List (TrackPoint ℚ))
    (gapMinutes : Option ℚ) : List (List (TrackPoint ℚ)) :=
  match pts with
  | [] => []
  | _ =>
    let segs := splitTrackSegs dist pts gapMinutes
    if segs.isEmpty then [pts] else segs

/- ===== Statistics engine: computeTrackStats (source lines 609-730) ===== -/

/-- The record returned by computeTrackStats. -/
structure TrackStats (K : Type) where
  totalDistanceKm : K
  totalDurationSec : K
  avgSpeedKmh : K
  maxSpeedKmh : K
  bboxWidthKm : K
  bboxHeightKm : K
  bboxMaxSpanKm : K
  bboxDiagonalKm : K
  bboxAreaKm2 : K
  trimmedWidthKm : K
  trimmedHeightKm : K
  trimmedMaxSpanKm : K
  trimmedAreaKm2 : K
  pointCount : ℕ
deriving DecidableEq

/-- Accumulator of the single pass over the points.  The min/max fields use
none for the Infinity / -Infinity initial values of the source. -/
structure StatsAcc (K : Type) where
  totalDistanceKm : K
  maxSpeedKmh : K
  prevPoint : Option (TrackPoint K)
  prevTime : Option K
  timeSamples : List K
  latSamples : List K
  lonSamples : List K
  minLat : Option K
  maxLat : Option K
  minLon : Option K
  maxLon : Option K

def statsInit {K : Type} [LinearOrderedField K] : StatsAcc K :=
  ⟨0, 0, none, none, [], [], [], none, none, none, none⟩

/-- One iteration of the for loop of computeTrackStats. -/
def statsStep {K : Type} [LinearOrderedField K] (dist : K → K → K → K → K)
    (acc : StatsAcc K) (p : TrackPoint K) : StatsAcc K :=
  let timeValue := p.time
  let timeSamples := match timeValue with
    | some t => acc.timeSamples ++ [t]
    | none => acc.timeSamples
  let distSpeed : K × K :=
    match acc.prevPoint with
    | none => (acc.totalDistanceKm, acc.maxSpeedKmh)
    | some pp =>
      let segmentKm := dist pp.lat pp.lon p.lat p.lon
      let newMax : K :=
        match timeValue, acc.prevTime with
        | some t, some pt =>
          let dtHours := (t - pt) / 3600000
          if 0 < dtHours then
            let speed := segmentKm / dtHours
            if acc.maxSpeedKmh < speed then speed else acc.maxSpeedKmh
          else acc.maxSpeedKmh
        | _, _ => acc.maxSpeedKmh
      (acc.totalDistanceKm + segmentKm, newMax)
  { totalDistanceKm := distSpeed.1
    maxSpeedKmh := distSpeed.2
    prevPoint := some p
    prevTime := timeValue
    timeSamples := timeSamples
    latSamples := acc.latSamples ++ [p.lat]
    lonSamples := acc.lonSamples ++ [p.lon]
    minLat := some (match acc.minLat with
      | none => p.lat
      | some m => if p.lat < m then p.lat else m)
    maxLat := some (match acc.maxLat with
      | none => p.lat
      | some m => if m < p.lat then p.lat else m)
    minLon := some (match acc.minLon with
      | none => p.lon
      | some m => if p.lon < m then p.lon else m)
    maxLon := some (match acc.maxLon with
      | none => p.lon
      | some m => if m < p.lon then p.lon else m) }

/-- Linear-interpolation quantile of the source (expects a sorted list).  The
source returns NaN on an empty list; that case is unreachable at its call
sites (they require at least 5 samples), modelled here as 0. -/
def quantile {K : Type} [LinearOrderedField K] [FloorRing K]
    (sortedValues : List K) (q : K) : K :=
  match sortedValues with
  | [] => 0
  | _ =>
    let clampedQ := min 1 (max 0 q)
    let pos := ((sortedValues.length - 1 : ℕ) : K) * clampedQ
    let base := (⌊pos⌋).toNat
    let rest := pos - (base : K)
    let nxt := sortedValues.getD (min (base + 1) (sortedValues.length - 1)) 0
    let current := sortedValues.getD base 0
    current + (nxt - current) * rest

/-- computeTrackStats from the source, with the distance function a parameter
(the source passes haversineDistance).  Empty input returns the all-zero
record. -/
def computeTrackStats {K : Type} [LinearOrderedField K] [FloorRing K]
    (dist : K → K → K → K → K) (points : List (TrackPoint K)) : TrackStats K :=
  match points with
  | [] => ⟨0, 0, 0, 0, 0, 0, 0, 0, 0, 0, 0, 0, 0, 0⟩
  | _ =>
    let acc := points.foldl (statsStep dist) statsInit
    let totalDurationSec : K :=
      if 2 ≤ acc.timeSamples.length then
        let sorted := acc.timeSamples.mergeSort
        max 0 ((sorted.getLastD 0 - sorted.headD 0) / 1000)
      else 0
    let avgSpeedKmh :=
      if 0 < totalDurationSec then acc.totalDistanceKm / (totalDurationSec / 3600)
      else 0
    let minLat := acc.minLat.getD 0
    let maxLat := acc.maxLat.getD 0
    let minLon := acc.minLon.getD 0
    let maxLon := acc.maxLon.getD 0
    let midLat := (minLat + maxLat) / 2
    let midLon := (minLon + maxLon) / 2
    let bboxWidthKm := dist midLat minLon midLat maxLon
    let bboxHeightKm := dist minLat midLon maxLat midLon
    let bboxDiagonalKm := dist minLat minLon maxLat maxLon
    let bboxMaxSpanKm := max bboxWidthKm bboxHeightKm
    let bboxAreaKm2 := bboxWidthKm * bboxHeightKm
    let trimmed : K × K :=
      if 5 ≤ acc.latSamples.length ∧ 5 ≤ acc.lonSamples.length then
        let sortedLat := acc.latSamples.mergeSort
        let sortedLon := acc.lonSamples.mergeSort
        let latLo := quantile sortedLat (2 / 100)
        let latHi := quantile sortedLat (98 / 100)
        let lonLo := quantile sortedLon (2 / 100)
        let lonHi := quantile sortedLon (98 / 100)
        let trimMidLat := (latLo + latHi) / 2
        let trimMidLon := (lonLo + lonHi) / 2
        (dist trimMidLat lonLo trimMidLat lonHi, dist latLo trimMidLon latHi trimMidLon)
      else (bboxWidthKm, bboxHeightKm)
    { totalDistanceKm := acc.totalDistanceKm
      totalDurationSec := totalDurationSec
      avgSpeedKmh := avgSpeedKmh
      maxSpeedKmh := acc.maxSpeedKmh
      bboxWidthKm := bboxWidthKm
      bboxHeightKm := bboxHeightKm
      bboxMaxSpanKm := bboxMaxSpanKm
      bboxDiagonalKm := bboxDiagonalKm
      bboxAreaKm2 := bboxAreaKm2
      trimmedWidthKm := trimmed.1
      trimmedHeightKm := trimmed.2
      trimmedMaxSpanKm := max trimmed.1 trimmed.2
      trimmedAreaKm2 := trimmed.1 * trimmed.2
      pointCount := points.length }

/- ===== Activity classifier: classifyActivity (source lines 738-777) ===== -/

inductive Activity where
  | running
  | futbol
  | bici
deriving DecidableEq

/-- The fixed tie-break priority of the comparator (bici over futbol over
running). -/
def activityPriority : Activity → ℕ
  | .bici => 3
  | .futbol => 2
  | .running => 1

/-- The scores object after all heuristic checks, as (futbol, running, bici),
in the insertion order of the source object literal. -/
def activityScores (stats : TrackStats ℚ) : ℕ × ℕ × ℕ :=
  let span := if stats.trimmedMaxSpanKm = 0 then stats.bboxMaxSpanKm
    else stats.trimmedMaxSpanKm
  let area := if stats.trimmedAreaKm2 = 0 then stats.bboxAreaKm2
    else stats.trimmedAreaKm2
  let bici0 : ℕ :=
    (if (18 : ℚ) ≤ stats.avgSpeedKmh then 3 else 0) +
    (if (28 : ℚ) ≤ stats.maxSpeedKmh then 2 else 0) +
    (if (3 : ℚ) * 4 ≤ stats.totalDistanceKm then 1 else 0)
  let futbol0 : ℕ :=
    (if span ≤ 35 / 100 then 1 else 0) +
    (if span ≤ 28 / 100 then 2 else 0) +
    (if area ≤ 8 / 100 then 2 else 0) +
    (if stats.totalDistanceKm ≤ 9 then 2 else 0) +
    (if stats.avgSpeedKmh ≤ 11 then 2 else 0)
  let running0 : ℕ :=
    (if (3 : ℚ) ≤ stats.totalDistanceKm then 1 else 0) +
    (if span ≤ 3 then 1 else 0)
  if (7 : ℚ) ≤ stats.avgSpeedKmh ∧ stats.avgSpeedKmh ≤ 16 then
    (futbol0, running0 + 2, bici0)
  else if (16 : ℚ) < stats.avgSpeedKmh then
    (futbol0, running0, bici0 + 1)
  else
    (futbol0 + 1, running0, bici0)

/-- Head of the sorted entries array of the source: the comparator orders by
descending score, ties by descending priority, so the head is the unique
lexicographic maximum; a best score of 0 falls back to running. -/
def pickBestActivity (sF sR sB : ℕ) : Activity :=
  let entries : List (Activity × ℕ) := [(.futbol, sF), (.running, sR), (.bici, sB)]
  let best := entries.foldl
    (fun b x =>
      if b.2 < x.2 ∨ (x.2 = b.2 ∧ activityPriority b.1 < activityPriority x.1) then x
      else b)
    (.futbol, sF)
  if best.2 = 0 then .running else best.1

def classifyActivity (stats : TrackStats ℚ) : Activity :=
  let s := activityScores stats
  pickBestActivity s.1 s.2.1 s.2.2

/-- Modelled from the claim wording (for comparison with classifyActivity):
the bucket with the highest score wins, ties go to bici over futbol over
running, and all-zero scores fall back to running. -/
def classifierSpec (sF sR sB : ℕ) : Activity :=
  if sF = 0 ∧ sR = 0 ∧ sB = 0 then .running
  else if sF ≤ sB ∧ sR ≤ sB then .bici
  else if sB < sF ∧ sR ≤ sF then .futbol
  else .running

/- ===== Geometry: haversineDistance (source lines 927-939) ===== -/

/-- JS Math.atan2 (signed zeros ignored; only the x > 0 branch is reachable
from haversineDistance on the inputs treated here). -/
noncomputable def jsAtan2 (y x : ℝ) : ℝ :=
  if 0 < x then Real.arctan (y / x)
  else if x < 0 ∧ 0 ≤ y then Real.arctan (y / x) + Real.pi
  else if x < 0 ∧ y < 0 then Real.arctan (y / x) - Real.pi
  else if x = 0 ∧ 0 < y then Real.pi / 2
  else if x = 0 ∧ y < 0 then -(Real.pi / 2)
  else 0

noncomputable def toRad (v : ℝ) : ℝ := v * Real.pi / 180

/-- haversineDistance of the source, over the reals. -/
noncomputable def haversineDistance (lat1 lon1 lat2 lon2 : ℝ) : ℝ :=
  let dLat := toRad (lat2 - lat1)
  let dLon := toRad (lon2 - lon1)
  let a := Real.sin (dLat / 2) * Real.sin (dLat / 2) +
    Real.cos (toRad lat1) * Real.cos (toRad lat2) *
      (Real.sin (dLon / 2) * Real.sin (dLon / 2))
  let c := 2 * jsAtan2 (Real.sqrt a) (Real.sqrt (1 - a))
  6371 * c

/- ===== Raster heatmap builder: per-cell shading (source lines 868-890) ===== -/

/-- The inline clamp of the pixel loop: v < 0 ? 0 : v > 1 ? 1 : v. -/
def clamp01 {K : Type} [LinearOrderedField K] (v : K) : K :=
  if v < 0 then 0 else if 1 < v then 1 else v

/-- Normalized cell value before gamma: the smoothed value times
1 / (p99 + 1e-9), clamped to [0, 1]. -/
noncomputable def normValue (s p99 : ℝ) : ℝ :=
  clamp01 (s * (1 / (p99 + 1 / 1000000000)))

/-- Cell value after gamma correction (Math.pow as real rpow). -/
noncomputable def postGammaValue (s p99 gamma : ℝ) : ℝ :=
  normValue s p99 ^ gamma

/-- The alpha (on the 0..1 scale, before the 255 rounding) the builder
assigns a cell: 0 at or below the threshold, else 0.25 + 0.65 t on the
rescaled value t = (v - threshold) / (1 - threshold). -/
noncomputable def overlayAlpha (s p99 gamma threshold : ℝ) : ℝ :=
  let v := postGammaValue s p99 gamma
  if v ≤ threshold then 0
  else 0.25 + 0.65 * ((v - threshold) / (1 - threshold))

/-- Number of cells of the smoothed grid that receive a positive alpha. -/
noncomputable def opaqueCount (cells : List ℝ) (p99 gamma threshold : ℝ) : ℕ :=
  (cells.filter (fun s => decide (0 < overlayAlpha s p99 gamma threshold))).length

/- ===== gaussianKernel1D (source lines 892-901) ===== -/

/-- Kernel radius: Math.max(1, Math.round(s * 3)) with s = Math.max(0.1,
sigma).  Math.round(x) is exactly the floor of x + 1/2, which is the
Mathlib round. -/
noncomputable def gaussRadius (sigma : ℝ) : ℕ :=
  (max 1 (round (max (1 / 10) sigma * 3))).toNat

/-- The unnormalized kernel taps, index j running over 0 .. 2 radius. -/
noncomputable def gaussRawKernel (sigma : ℝ) : List ℝ :=
  let s := max (1 / 10) sigma
  let radius := gaussRadius sigma
  let inv := 1 / (2 * s * s)
  (List.range (radius * 2 + 1)).map (fun (j : ℕ) =>
    let i : ℝ := (j : ℝ) - (radius : ℝ)
    Real.exp (-(i * i) * inv))

/-- gaussianKernel1D of the source: the normalized kernel with its radius. -/
noncomputable def gaussianKernel1D (sigma : ℝ) : List ℝ × ℕ :=
  let raw := gaussRawKernel sigma
  let s := raw.sum
  (raw.map (· / s), gaussRadius sigma)

/- ===== Rebuild coordination (source lines 124-155, 183-232) ===== -/

/-- Events of the rebuild coordination for one session: issue seg bid models
scheduleOverlayRebuild bumping the per-segment counter and starting the
async build bid tagged with the captured value; complete seg bid models that
build resolving; reset models updateSegmentGap or mergeSegments storing a
fresh empty segments map (pending builds keep running). -/
inductive REv where
  | issue (seg bid : ℕ)
  | complete (seg bid : ℕ)
  | reset
deriving DecidableEq

/-- Coordination state: per-segment counters (assoc list, newest first),
in-flight builds with their captured tags, and the applied overlay (the
build id whose url the session currently holds) per segment. -/
structure RCState where
  counters : List (ℕ × ℕ)
  pending : List (ℕ × ℕ × ℕ)
  applied : List (ℕ × ℕ)
deriving DecidableEq

def lookupA (l : List (ℕ × ℕ)) (k : ℕ) : Option ℕ :=
  (l.find? (fun p => p.1 = k)).map (·.2)

def lookupPending (l : List (ℕ × ℕ × ℕ)) (bid seg : ℕ) : Option ℕ :=
  (l.find? (fun e => e.1 = bid ∧ e.2.1 = seg)).map (fun e => e.2.2)

/-- One event: issue captures segSeq = stored counter + 1 and records it;
complete applies its result only when the stored counter still equals the
captured tag (an absent entry never equals it); reset empties the counters
map. -/
def rcStep (st : RCState) : REv → RCState
  | .issue seg bid =>
    let segSeq := (lookupA st.counters seg).getD 0 + 1
    { counters := (seg, segSeq) :: st.counters
      pending := (bid, seg, segSeq) :: st.pending
      applied := st.applied }
  | .complete seg bid =>
    match lookupPending st.pending bid seg with
    | none => st
    | some tag =>
      if lookupA st.counters seg = some tag then
        { st with applied := (seg, bid) :: st.applied }
      else st
  | .reset => { st with counters := [] }

def rcRun (tr : List REv) : RCState := tr.foldl rcStep ⟨[], [], []⟩

/- ===== Track parser: parseGPX (source lines 495-507) ===== -/

/-- A raw trkpt element: the lat/lon attribute strings (none when the
attribute is absent) and the text of the first nested time element. -/
structure RawTrkpt where
  latAttr : Option String
  lonAttr : Option String
  timeText : Option String
deriving DecidableEq

/-- Models getAttribute(name) || "0": null and the empty string (both
falsy) are replaced by the literal "0". -/
def attrOrZero : Option String → String
  | none => "0"
  | some s => if s = "" then "0" else s

/-- A mapped point before the finiteness filter; lat or lon is none when
parseFloat returned NaN on its string. -/
structure ParsedPt where
  lat : Option ℚ
  lon : Option ℚ
  time : Option String
deriving DecidableEq

/-- The map step of parseGPX.  pf models parseFloat: pf s = some q exactly
when parseFloat(s) is the finite number q, none when it is NaN or infinite. -/
def parsePoint (pf : String → Option ℚ) (el : RawTrkpt) : ParsedPt :=
  ⟨pf (attrOrZero el.latAttr), pf (attrOrZero el.lonAttr), el.timeText⟩

/-- The points array of parseGPX: map over the trkpt elements, then the
isFinite filter on both coordinates. -/
def parseGPXPoints (pf : String → Option ℚ) (els : List RawTrkpt) : List ParsedPt :=
  (els.map (parsePoint pf)).filter (fun p => p.lat.isSome && p.lon.isSome)

/- ===== Spec-side notions the claims compare against ===== -/

/-- Modelled from the claim wording: the qualifying pairwise speed samples of
a track, in order.  One sample per consecutive pair whose two timestamps are
finite with positive elapsed time; other pairs contribute none. -/
def specSpeedSamples {K : Type} [LinearOrderedField K]
    (dist : K → K → K → K → K) : List (TrackPoint K) → List K
  | p :: q :: rest =>
    (match p.time, q.time with
      | some tp, some tq =>
        if 0 < (tq - tp) / 3600000 then
          [dist p.lat p.lon q.lat q.lon / ((tq - tp) / 3600000)]
        else []
      | _, _ => []) ++ specSpeedSamples dist (q :: rest)
  | _ => []

/-- No consecutive timestamped pair of the track goes backward in time. -/
def TimeMonotone (pts : List (TrackPoint ℚ)) : Prop :=
  List.Chain' (fun p q => ∀ tp tq, p.time = some tp → q.time = some tq → tp ≤ tq) pts

/-- A constant-zero distance function, used to instantiate theorems whose
distance function is a parameter. -/
def qdist0 : ℚ → ℚ → ℚ → ℚ → ℚ := fun _ _ _ _ => 0

/-- A fragment of parseFloat, consistent with JS on the strings it is applied
to (parseFloat of "0" is 0 and of "1" is 1; anything else unparseable). -/
def pfExample : String → Option ℚ :=
  fun s => if s = "0" then some 0 else if s = "1" then some 1 else none

/-- The 2-point example track of the spec: (0,0) and (0,0.001) one second
apart, timestamps in milliseconds. -/
noncomputable def exampleTrack : List (TrackPoint ℝ) :=
  [⟨0, 0, some 0⟩, ⟨0, 1 / 1000, some 1000⟩]

/- ===== Theorems ===== -/

theorem pickBestActivity_eq_classifierSpec (sF sR sB : ℕ) :
    pickBestActivity sF sR sB = classifierSpec sF sR sB := by
  simp only [pickBestActivity, classifierSpec, List.foldl, activityPriority]
  split_ifs <;> first | rfl | omega | (simp_all only [activityPriority]; omega)

/-- C8: classifyActivity returns the bucket with the strictly highest score;
ties are decided by the fixed priority bici over futbol over running, and
all-zero scores fall back to running - that is, it agrees with classifierSpec
on the computed scores. -/
theorem C8_classifier (stats : TrackStats ℚ) :
    classifyActivity stats =
      classifierSpec (activityScores stats).1 (activityScores stats).2.1
        (activityScores stats).2.2 := by
  simp only [classifyActivity]
  exact pickBestActivity_eq_classifierSpec _ _ _

theorem clamp01_nonneg {K : Type} [LinearOrderedField K] (v : K) : 0 ≤ clamp01 v := by
  unfold clamp01
  split_ifs with h1 h2
  · exact le_refl 0
  · exact zero_le_one
  · exact le_of_not_lt h1

theorem clamp01_le_one {K : Type} [LinearOrderedField K] (v : K) : clamp01 v ≤ 1 := by
  unfold clamp01
  split_ifs with h1 h2
  · exact zero_le_one
  · exact le_refl 1
  · exact le_of_not_lt h2

theorem normValue_nonneg (s p99 : ℝ) : 0 ≤ normValue s p99 :=
  clamp01_nonneg _

theorem normValue_le_one (s p99 : ℝ) : normValue s p99 ≤ 1 :=
  clamp01_le_one _

theorem postGammaValue_le_one (s p99 gamma : ℝ) (hg : 0 ≤ gamma) :
    postGammaValue s p99 gamma ≤ 1 :=
  Real.rpow_le_one (normValue_nonneg s p99) (normValue_le_one s p99) hg

/-- C6: in the raster builder a cell whose normalized post-gamma value is at
or below the threshold gets alpha 0 (fully transparent); in particular with
threshold 0.05 a post-gamma value of exactly 0.05 is transparent; strictly
above the threshold the alpha is 0.25 + 0.65 times the rescaled value
(v - threshold) / (1 - threshold), and that rescaled value lies in (0, 1]
whenever the threshold is in [0, 1) and gamma is nonnegative. -/
theorem C6_threshold_boundary (s p99 gamma threshold : ℝ) :
    (postGammaValue s p99 gamma ≤ threshold →
      overlayAlpha s p99 gamma threshold = 0) ∧
    (threshold = 1 / 20 → postGammaValue s p99 gamma = 1 / 20 →
      overlayAlpha s p99 gamma threshold = 0) ∧
    (threshold < postGammaValue s p99 gamma →
      overlayAlpha s p99 gamma threshold =
        0.25 + 0.65 * ((postGammaValue s p99 gamma - threshold) / (1 - threshold))) ∧
    (threshold < postGammaValue s p99 gamma → 0 ≤ threshold → threshold < 1 →
      0 ≤ gamma →
      0 < (postGammaValue s p99 gamma - threshold) / (1 - threshold) ∧
        (postGammaValue s p99 gamma - threshold) / (1 - threshold) ≤ 1) := by
  refine ⟨?_, ?_, ?_, ?_⟩
  · intro h
    simp only [overlayAlpha]
    rw [if_pos h]
  · intro ht hv
    simp only [overlayAlpha]
    rw [if_pos (le_of_eq (hv.trans ht.symm))]
  · intro h
    simp only [overlayAlpha]
    rw [if_neg (not_le.mpr h)]
  · intro h h0 h1 hg
    have hv1 : postGammaValue s p99 gamma ≤ 1 := postGammaValue_le_one s p99 gamma hg
    constructor
    · exact div_pos (by linarith) (by linarith)
    · rw [div_le_one (by linarith)]
      linarith

theorem postGammaValue_zero_one : postGammaValue 0 0 1 = 0 := by
  have h : normValue 0 0 = 0 := by
    unfold normValue clamp01
    norm_num
  unfold postGammaValue
  rw [h, Real.rpow_one]

theorem postGammaValue_two_one (gamma : ℝ) : postGammaValue 2 1 gamma = 1 := by
  have h : normValue 2 1 = 1 := by
    unfold normValue clamp01
    norm_num
  unfold postGammaValue
  rw [h, Real.one_rpow]

theorem C6_threshold_boundary_witness :
    overlayAlpha 0 0 1 1 = 0 ∧
    overlayAlpha 2 1 1 0 = 0.25 + 0.65 * ((postGammaValue 2 1 1 - 0) / (1 - 0)) := by
  constructor
  · exact (C6_threshold_boundary 0 0 1 1).1
      (by rw [postGammaValue_zero_one]; exact zero_le_one)
  · exact (C6_threshold_boundary 2 1 1 0).2.2.1
      (by rw [postGammaValue_two_one]; exact zero_lt_one)

theorem length_filter_mono {α : Type} (l : List α) (p q : α → Bool)
    (h : ∀ a, p a = true → q a = true) :
    (l.filter p).length ≤ (l.filter q).length := by
  induction l with
  | nil => simp
  | cons a t ih =>
    by_cases hp : p a = true
    · rw [List.filter_cons_of_pos hp, List.filter_cons_of_pos (h a hp)]
      simpa using ih
    · rw [List.filter_cons_of_neg (by simpa using hp)]
      cases hq : q a
      · rw [List.filter_cons_of_neg (by simp [hq])]
        exact ih
      · rw [List.filter_cons_of_pos (by simp [hq])]
        exact ih.trans (Nat.le_succ _)

theorem overlayAlpha_pos_mono (s p99 gamma th1 th2 : ℝ) (h12 : th1 ≤ th2)
    (h2 : th2 < 1) (h : 0 < overlayAlpha s p99 gamma th2) :
    0 < overlayAlpha s p99 gamma th1 := by
  simp only [overlayAlpha] at h ⊢
  by_cases hv : postGammaValue s p99 gamma ≤ th2
  · rw [if_pos hv] at h
    exact absurd h (lt_irrefl 0)
  · push_neg at hv
    rw [if_neg (not_le.mpr (lt_of_le_of_lt h12 hv))]
    have hpos := div_pos (sub_pos.mpr (lt_of_le_of_lt h12 hv))
      (by linarith : (0:ℝ) < 1 - th1)
    linarith

/-- C7: for a fixed cell list and normalization, raising the threshold never
increases the number of cells with positive alpha (thresholds below 1, the
configured range being [0, 0.2]); and for a cell with pre-gamma normalized
value below 1, raising gamma above 1 never increases the post-gamma value. -/
theorem C7_monotonicity :
    (∀ (cells : List ℝ) (p99 gamma th1 th2 : ℝ), th1 ≤ th2 → th2 < 1 →
      opaqueCount cells p99 gamma th2 ≤ opaqueCount cells p99 gamma th1) ∧
    (∀ (s p99 g1 g2 : ℝ), 1 ≤ g1 → g1 ≤ g2 → normValue s p99 < 1 →
      postGammaValue s p99 g2 ≤ postGammaValue s p99 g1) := by
  constructor
  · intro cells p99 gamma th1 th2 h12 h2
    unfold opaqueCount
    apply length_filter_mono
    intro a ha
    rw [decide_eq_true_eq] at ha ⊢
    exact overlayAlpha_pos_mono a p99 gamma th1 th2 h12 h2 ha
  · intro s p99 g1 g2 hg1 hg12 hv
    rcases eq_or_lt_of_le (normValue_nonneg s p99) with h0 | h0
    · simp only [postGammaValue, ← h0]
      rw [Real.zero_rpow (ne_of_gt (by linarith : (0:ℝ) < g2)),
        Real.zero_rpow (ne_of_gt (by linarith : (0:ℝ) < g1))]
    · exact Real.rpow_le_rpow_of_exponent_ge h0 (le_of_lt hv) hg12

theorem normValue_zero_zero : normValue 0 0 = 0 := by
  unfold normValue clamp01
  norm_num

theorem C7_monotonicity_witness :
    opaqueCount [(0:ℝ)] 0 1 (1 / 2) ≤ opaqueCount [(0:ℝ)] 0 1 0 ∧
    postGammaValue 0 0 2 ≤ postGammaValue 0 0 1 :=
  ⟨C7_monotonicity.1 [0] 0 1 0 (1 / 2) (by norm_num) (by norm_num),
   C7_monotonicity.2 0 0 1 2 le_rfl one_le_two
     (by rw [normValue_zero_zero]; exact zero_lt_one)⟩

theorem sum_map_div (l : List ℝ) (c : ℝ) : (l.map (· / c)).sum = l.sum / c := by
  induction l with
  | nil => simp
  | cons a t ih => simp [ih, add_div]

theorem gaussRadius_eq (sigma : ℝ) (h2 : 2 ≤ sigma) :
    gaussRadius sigma = (round (3 * sigma)).toNat := by
  unfold gaussRadius
  have hmax : max (1 / 10) sigma = sigma := max_eq_right (by linarith)
  rw [hmax, mul_comm sigma 3]
  congr 1
  apply max_eq_right
  have h6 : (6 : ℤ) ≤ round (3 * sigma) := by
    rw [round_eq]
    exact Int.le_floor.mpr (by push_cast; linarith)
  linarith

theorem gaussRawKernel_sum_pos (sigma : ℝ) : 0 < (gaussRawKernel sigma).sum := by
  apply List.sum_pos
  · intro x hx
    unfold gaussRawKernel at hx
    simp only [List.mem_map] at hx
    obtain ⟨j, _, rfl⟩ := hx
    exact Real.exp_pos _
  · have hlen : (gaussRawKernel sigma).length = gaussRadius sigma * 2 + 1 := by
      simp [gaussRawKernel]
    intro h
    rw [h] at hlen
    simp at hlen

/-- C9: for sigma in the configured range [2, 30] the Gaussian kernel has
radius round(3 sigma), hence 2 round(3 sigma) + 1 taps, and its normalized
entries sum to 1 in exact real arithmetic. -/
theorem C9_gaussian_kernel (sigma : ℝ) (h2 : 2 ≤ sigma) (_h30 : sigma ≤ 30) :
    (gaussianKernel1D sigma).2 = (round (3 * sigma)).toNat ∧
    (gaussianKernel1D sigma).1.length = 2 * (round (3 * sigma)).toNat + 1 ∧
    (gaussianKernel1D sigma).1.sum = 1 := by
  have hrad := gaussRadius_eq sigma h2
  refine ⟨hrad, ?_, ?_⟩
  · have hlen : (gaussianKernel1D sigma).1.length = gaussRadius sigma * 2 + 1 := by
      simp [gaussianKernel1D, gaussRawKernel]
    rw [hlen, hrad]
    omega
  · simp only [gaussianKernel1D]
    rw [sum_map_div]
    exact div_self (ne_of_gt (gaussRawKernel_sum_pos sigma))

theorem C9_gaussian_kernel_witness :
    (gaussianKernel1D 2).2 = (round ((3:ℝ) * 2)).toNat ∧
    (gaussianKernel1D 2).1.length = 2 * (round ((3:ℝ) * 2)).toNat + 1 ∧
    (gaussianKernel1D 2).1.sum = 1 :=
  C9_gaussian_kernel 2 le_rfl (by norm_num)

theorem filter_map_eq_filterMap {α β : Type} (f : α → β) (p : β → Bool)
    (l : List α) :
    (l.map f).filter p =
      l.filterMap (fun a => if p (f a) then some (f a) else none) := by
  induction l with
  | nil => rfl
  | cons a t ih =>
    simp only [List.map_cons, List.filter_cons, List.filterMap_cons]
    cases hp : p (f a) <;> simp [hp, ih]

/-- C3 counterexample: a trkpt element with an absent lat attribute and lon
attribute "1" is retained with latitude 0 (because getAttribute || "0"
substitutes the parseable string "0"), although its latitude attribute does
not parse to a finite number; so not every malformed point is dropped and
the claimed iff fails. -/
theorem C3_counterexample :
    (⟨none, some "1", none⟩ : RawTrkpt).latAttr = none ∧
    parseGPXPoints pfExample [⟨none, some "1", none⟩] = [⟨some 0, some 1, none⟩] := by
  constructor
  · rfl
  · decide

/-- C3 (amended): a point element is retained iff parseFloat of each
coordinate attribute, with an absent or empty attribute first replaced by
the string "0", yields a finite number; in particular, since parseFloat of
"0" is 0, an element with an absent latitude attribute and a parseable
longitude is retained with latitude 0 rather than dropped.  Present but
unparseable attributes still drop the point silently. -/
theorem C3_parser_amended (pf : String → Option ℚ) (h0 : pf "0" = some 0) :
    (∀ els : List RawTrkpt,
      parseGPXPoints pf els = els.filterMap (fun el =>
        if ((parsePoint pf el).lat.isSome && (parsePoint pf el).lon.isSome) then
          some (parsePoint pf el)
        else none)) ∧
    (∀ el : RawTrkpt, el.latAttr = none → (pf (attrOrZero el.lonAttr)).isSome →
      parseGPXPoints pf [el] = [⟨some 0, pf (attrOrZero el.lonAttr), el.timeText⟩]) := by
  constructor
  · intro els
    unfold parseGPXPoints
    exact filter_map_eq_filterMap (parsePoint pf) _ els
  · intro el hlat hlon
    obtain ⟨q, hq⟩ := Option.isSome_iff_exists.mp hlon
    simp [parseGPXPoints, parsePoint, hlat, hq, h0,
      show attrOrZero none = "0" from rfl]

theorem C3_parser_amended_witness :
    parseGPXPoints pfExample [⟨none, some "1", some "T"⟩] =
      [⟨some 0, some 1, some "T"⟩] := by
  have h := (C3_parser_amended pfExample (by decide)).2 ⟨none, some "1", some "T"⟩
    rfl (by decide)
  rw [h]
  decide

theorem jsSlice_decomp (pts : List (TrackPoint ℚ)) (a b : ℕ) :
    ∃ pre post, pts = pre ++ jsSlice pts a b ++ post :=
  ⟨pts.take a, (pts.drop a).drop (b - a), by
    unfold jsSlice
    rw [List.append_assoc, List.take_append_drop, List.take_append_drop]⟩

theorem drop_decomp (pts : List (TrackPoint ℚ)) (a : ℕ) :
    ∃ pre post, pts = pre ++ pts.drop a ++ post :=
  ⟨pts.take a, [], by rw [List.append_nil, List.take_append_drop]⟩

theorem pushSeg_good (pts : List (TrackPoint ℚ)) (segs : List (List (TrackPoint ℚ)))
    (seg : List (TrackPoint ℚ))
    (hsegs : ∀ s ∈ segs, s ≠ [] ∧ ∃ pre post, pts = pre ++ s ++ post)
    (hseg : ∃ pre post, pts = pre ++ seg ++ post) :
    ∀ s ∈ pushSeg segs seg, s ≠ [] ∧ ∃ pre post, pts = pre ++ s ++ post := by
  unfold pushSeg
  split_ifs with h
  · exact hsegs
  · intro s hs
    rcases List.mem_append.mp hs with h1 | h1
    · exact hsegs s h1
    · rw [List.mem_singleton.mp h1]
      refine ⟨?_, hseg⟩
      intro hnil
      rw [hnil] at h
      simp at h

theorem splitStep_good (dist : ℚ → ℚ → ℚ → ℚ → ℚ) (gapSec : Option ℚ)
    (pts : List (TrackPoint ℚ)) (prev curr : TrackPoint ℚ) (i : ℕ)
    (st : SplitState)
    (h : ∀ s ∈ st.segments, s ≠ [] ∧ ∃ pre post, pts = pre ++ s ++ post) :
    ∀ s ∈ (splitStep dist gapSec pts prev curr i st).segments,
      s ≠ [] ∧ ∃ pre post, pts = pre ++ s ++ post := by
  cases hp : prev.time with
  | none =>
    cases hc : curr.time <;> simpa [splitStep, hp, hc] using h
  | some tp =>
    cases hc : curr.time with
    | none => simpa [splitStep, hp, hc] using h
    | some tc =>
      cases hb : st.inactivityQualified <;> cases hi : st.inactivityStartIdx <;>
        simp only [splitStep, hp, hc, hb, hi] <;>
        split_ifs <;>
        first
          | exact h
          | exact pushSeg_good pts st.segments _ h (jsSlice_decomp pts _ _)

theorem splitLoop_good (dist : ℚ → ℚ → ℚ → ℚ → ℚ) (gapSec : Option ℚ)
    (pts : List (TrackPoint ℚ)) (rest : List (TrackPoint ℚ)) :
    ∀ (prev : TrackPoint ℚ) (i : ℕ) (st : SplitState),
      (∀ s ∈ st.segments, s ≠ [] ∧ ∃ pre post, pts = pre ++ s ++ post) →
      ∀ s ∈ (splitLoop dist gapSec pts prev rest i st).segments,
        s ≠ [] ∧ ∃ pre post, pts = pre ++ s ++ post := by
  induction rest with
  | nil => intro prev i st h; exact h
  | cons curr rest ih =>
    intro prev i st h
    exact ih curr (i + 1) _ (splitStep_good dist gapSec pts prev curr i st h)

theorem splitFinal_good (pts : List (TrackPoint ℚ)) (st : SplitState)
    (h : ∀ s ∈ st.segments, s ≠ [] ∧ ∃ pre post, pts = pre ++ s ++ post) :
    ∀ s ∈ splitFinal pts st, s ≠ [] ∧ ∃ pre post, pts = pre ++ s ++ post := by
  unfold splitFinal
  cases hb : st.inactivityQualified <;> cases hi : st.inactivityStartIdx <;>
    simp only [] <;>
    split_ifs <;>
    first
      | exact h
      | exact pushSeg_good pts st.segments _ h (jsSlice_decomp pts _ _)
      | exact pushSeg_good pts st.segments _ h (drop_decomp pts _)

theorem splitTrackSegs_good (dist : ℚ → ℚ → ℚ → ℚ → ℚ)
    (pts : List (TrackPoint ℚ)) (gap : Option ℚ) :
    ∀ s ∈ splitTrackSegs dist pts gap,
      s ≠ [] ∧ ∃ pre post, pts = pre ++ s ++ post := by
  cases pts with
  | nil => intro s hs; simp [splitTrackSegs] at hs
  | cons p rest =>
    unfold splitTrackSegs
    apply splitFinal_good
    apply splitLoop_good
    intro s hs
    simp at hs

/-- C10: on a non-empty point list, splitTrack always returns a non-empty
list whose members are non-empty contiguous slices of the input, and when
the splitting loop emitted no segments (for instance when the whole track is
one qualified inactive run, whose trailing tail would be dropped) the whole
input is returned as the single segment. -/
theorem C10_splitTrack_structure (dist : ℚ → ℚ → ℚ → ℚ → ℚ)
    (pts : List (TrackPoint ℚ)) (gap : Option ℚ) (hne : pts ≠ []) :
    splitTrack dist pts gap ≠ [] ∧
    (∀ s ∈ splitTrack dist pts gap,
      s ≠ [] ∧ ∃ pre post, pts = pre ++ s ++ post) ∧
    (splitTrackSegs dist pts gap = [] → splitTrack dist pts gap = [pts]) := by
  have hgood := splitTrackSegs_good dist pts gap
  cases pts with
  | nil => exact absurd rfl hne
  | cons p rest =>
    unfold splitTrack
    by_cases he : (splitTrackSegs dist (p :: rest) gap).isEmpty
    · rw [if_pos he]
      refine ⟨by simp, ?_, fun _ => rfl⟩
      intro s hs
      rw [List.mem_singleton.mp hs]
      exact ⟨by simp, [], [], by simp⟩
    · rw [if_neg he]
      refine ⟨by simpa [List.isEmpty_iff] using he, hgood, ?_⟩
      intro hnil
      rw [hnil] at he
      simp at he

theorem C10_splitTrack_structure_witness :
    splitTrack qdist0 [⟨0, 0, none⟩] none ≠ [] :=
  (C10_splitTrack_structure qdist0 [⟨0, 0, none⟩] none (by decide)).1

/-- C2 counterexample: a 2-point track whose timestamps run backward.  The
defensive forced cut on a negative time delta fires even under an infinite
gap, so splitTrack returns two one-point segments instead of the single
whole-track segment the claim requires. -/
theorem C2_counterexample :
    ([⟨0, 0, some 10000⟩, ⟨0, 0, some 0⟩] : List (TrackPoint ℚ)) ≠ [] ∧
    splitTrack qdist0 [⟨0, 0, some 10000⟩, ⟨0, 0, some 0⟩] none =
      [[⟨0, 0, some 10000⟩], [⟨0, 0, some 0⟩]] ∧
    splitTrack qdist0 [⟨0, 0, some 10000⟩, ⟨0, 0, some 0⟩] none ≠
      [[⟨0, 0, some 10000⟩, ⟨0, 0, some 0⟩]] := by
  have hval : splitTrack qdist0 [⟨0, 0, some 10000⟩, ⟨0, 0, some 0⟩] none =
      [[⟨0, 0, some 10000⟩], [⟨0, 0, some 0⟩]] := by
    norm_num [splitTrack, splitTrackSegs, splitLoop, splitStep, splitFinal,
      inactivitySecondsOf, pushSeg, jsSlice, qdist0]
  refine ⟨by simp, hval, ?_⟩
  rw [hval]
  simp

theorem splitStep_inv (dist : ℚ → ℚ → ℚ → ℚ → ℚ) (pts : List (TrackPoint ℚ))
    (prev curr : TrackPoint ℚ) (i : ℕ) (st : SplitState)
    (hmono : ∀ tp tq, prev.time = some tp → curr.time = some tq → tp ≤ tq)
    (hinv : st.segments = [] ∧ st.segmentStartIdx = 0 ∧
      st.inactivityQualified = false) :
    (splitStep dist none pts prev curr i st).segments = [] ∧
    (splitStep dist none pts prev curr i st).segmentStartIdx = 0 ∧
    (splitStep dist none pts prev curr i st).inactivityQualified = false := by
  obtain ⟨h1, h2, h3⟩ := hinv
  cases hp : prev.time with
  | none => cases hc : curr.time <;> simp [splitStep, hp, hc, h1, h2, h3]
  | some tp =>
    cases hc : curr.time with
    | none => simp [splitStep, hp, hc, h1, h2, h3]
    | some tc =>
      have hle : (0 : ℚ) ≤ (tc - tp) / 1000 := by
        have hmt := hmono tp tc hp hc
        have : (0 : ℚ) ≤ tc - tp := by linarith
        positivity
      simp only [splitStep, hp, hc]
      split_ifs with hA hB hC
      · exact absurd hB.1 (not_lt.mpr hle)
      · exact ⟨h1, h2, rfl⟩
      · refine ⟨h1, h2, ?_⟩
        simp [h3]
      · simp only [h3]
        exact ⟨h1, h2, trivial⟩

theorem splitLoop_inv (dist : ℚ → ℚ → ℚ → ℚ → ℚ) (pts : List (TrackPoint ℚ))
    (rest : List (TrackPoint ℚ)) :
    ∀ (prev : TrackPoint ℚ) (i : ℕ) (st : SplitState),
      List.Chain' (fun p q : TrackPoint ℚ =>
        ∀ tp tq, p.time = some tp → q.time = some tq → tp ≤ tq) (prev :: rest) →
      st.segments = [] ∧ st.segmentStartIdx = 0 ∧
        st.inactivityQualified = false →
      (splitLoop dist none pts prev rest i st).segments = [] ∧
      (splitLoop dist none pts prev rest i st).segmentStartIdx = 0 ∧
      (splitLoop dist none pts prev rest i st).inactivityQualified = false := by
  induction rest with
  | nil => intro prev i st _ hinv; exact hinv
  | cons curr rest ih =>
    intro prev i st hchain hinv
    rw [List.chain'_cons] at hchain
    exact ih curr (i + 1) _ hchain.2
      (splitStep_inv dist pts prev curr i st hchain.1 hinv)

theorem splitFinal_of_inv (pts : List (TrackPoint ℚ)) (st : SplitState)
    (hne : pts ≠ []) (h1 : st.segments = []) (h2 : st.segmentStartIdx = 0)
    (h3 : st.inactivityQualified = false) :
    splitFinal pts st = [pts] := by
  unfold splitFinal
  simp only [h3, h1, h2]
  cases hq : st.inactivityStartIdx <;>
    simp [pushSeg, List.length_pos, List.isEmpty_iff, hne]

/-- C2 (amended): on every non-empty track whose consecutive timestamped
pairs never go backward in time, segmenting with the infinite gap returns
exactly one segment equal to the whole track.  (Without the monotonicity
hypothesis the forced cut on a negative time delta can still split the
track, as the counterexample shows.) -/
theorem C2_infinite_gap_amended (dist : ℚ → ℚ → ℚ → ℚ → ℚ)
    (pts : List (TrackPoint ℚ)) (hne : pts ≠ []) (hmono : TimeMonotone pts) :
    splitTrack dist pts none = [pts] := by
  cases pts with
  | nil => exact absurd rfl hne
  | cons p rest =>
    have hinv := splitLoop_inv dist (p :: rest) rest p 1 ⟨[], 0, none, 0, false⟩
      hmono ⟨rfl, rfl, rfl⟩
    have hsegs : splitTrackSegs dist (p :: rest) none = [p :: rest] := by
      show splitFinal (p :: rest)
          (splitLoop dist (inactivitySecondsOf none) (p :: rest) p rest 1
            ⟨[], 0, none, 0, false⟩) = [p :: rest]
      exact splitFinal_of_inv (p :: rest) _ (by simp) hinv.1 hinv.2.1 hinv.2.2
    unfold splitTrack
    rw [hsegs]
    rfl

theorem C2_infinite_gap_amended_witness :
    splitTrack qdist0 [⟨0, 0, some 0⟩, ⟨0, 0, some 1000⟩] none =
      [[⟨0, 0, some 0⟩, ⟨0, 0, some 1000⟩]] :=
  C2_infinite_gap_amended qdist0 [⟨0, 0, some 0⟩, ⟨0, 0, some 1000⟩] (by simp)
    (by
      unfold TimeMonotone
      rw [List.chain'_cons]
      refine ⟨?_, List.chain'_singleton _⟩
      intro tp tq hp hq
      cases hp
      cases hq
      norm_num)

theorem foldl_timeSamples {K : Type} [LinearOrderedField K]
    (dist : K → K → K → K → K) (pts : List (TrackPoint K)) :
    ∀ acc : StatsAcc K,
      (pts.foldl (statsStep dist) acc).timeSamples =
        acc.timeSamples ++ pts.filterMap (fun p => p.time) := by
  induction pts with
  | nil => intro acc; simp
  | cons p rest ih =>
    intro acc
    rw [List.foldl_cons, ih]
    cases hp : p.time <;> simp [statsStep, hp]

theorem ite_lt_max {K : Type} [LinearOrder K] (a b : K) :
    (if a < b then b else a) = max a b := by
  rcases le_or_lt b a with h | h
  · rw [if_neg (not_lt.mpr h), max_eq_left h]
  · rw [if_pos h, max_eq_right h.le]

theorem foldl_maxSpeed {K : Type} [LinearOrderedField K]
    (dist : K → K → K → K → K) (rest : List (TrackPoint K)) :
    ∀ (acc : StatsAcc K) (q : TrackPoint K),
      acc.prevPoint = some q → acc.prevTime = q.time →
      (rest.foldl (statsStep dist) acc).maxSpeedKmh =
        (specSpeedSamples dist (q :: rest)).foldl max acc.maxSpeedKmh := by
  induction rest with
  | nil =>
    intro acc q h1 h2
    simp [specSpeedSamples]
  | cons p rest ih =>
    intro acc q h1 h2
    rw [List.foldl_cons,
      ih (statsStep dist acc p) p rfl rfl]
    have hhead : specSpeedSamples dist (q :: p :: rest) =
        (match q.time, p.time with
          | some tp, some tq =>
            if 0 < (tq - tp) / 3600000 then
              [dist q.lat q.lon p.lat p.lon / ((tq - tp) / 3600000)]
            else []
          | _, _ => []) ++ specSpeedSamples dist (p :: rest) := rfl
    rw [hhead, List.foldl_append]
    congr 1
    cases hq : q.time with
    | none =>
      simp only [statsStep, h1, h2, hq]
      cases hp : p.time <;> simp
    | some tq0 =>
      cases hp : p.time with
      | none => simp [statsStep, h1, h2, hq, hp]
      | some tp0 =>
        simp only [statsStep, h1, h2, hq, hp]
        split_ifs with hdt hlt
        · simp only [List.foldl_cons, List.foldl_nil]
          exact (max_eq_right hlt.le).symm
        · simp only [List.foldl_cons, List.foldl_nil]
          exact (max_eq_left (not_lt.mp hlt)).symm
        · simp only [List.foldl_nil]

theorem sorted_headD_le {K : Type} [LinearOrder K] (s : List K)
    (hs : List.Sorted (· ≤ ·) s) (d : K) : ∀ x ∈ s, s.headD d ≤ x := by
  cases s with
  | nil => simp
  | cons a t =>
    intro x hx
    rcases List.mem_cons.mp hx with rfl | hx2
    · exact le_refl x
    · exact List.rel_of_sorted_cons hs x hx2

theorem getLastD_mem {α : Type} : ∀ (s : List α), s ≠ [] → ∀ d, s.getLastD d ∈ s := by
  intro s
  induction s with
  | nil => intro h; exact absurd rfl h
  | cons a t ih =>
    intro _ d
    rw [List.getLastD_cons]
    cases ht : t with
    | nil => simp
    | cons b t2 =>
      rw [← ht]
      exact List.mem_cons_of_mem a (ih (by rw [ht]; simp) a)

theorem le_sorted_getLastD {K : Type} [LinearOrder K] :
    ∀ (s : List K), List.Sorted (· ≤ ·) s → ∀ d, ∀ x ∈ s, x ≤ s.getLastD d := by
  intro s
  induction s with
  | nil => simp
  | cons a t ih =>
    intro hs d x hx
    rw [List.getLastD_cons]
    cases ht : t with
    | nil =>
      rw [ht] at hx
      simp at hx
      simp [hx]
    | cons b t2 =>
      rcases List.mem_cons.mp hx with rfl | hx2
      · rw [← ht]
        exact List.rel_of_sorted_cons hs _ (getLastD_mem t (by rw [ht]; simp) x)
      · rw [← ht]
        exact ih hs.of_cons a x (by rw [ht] at hx2 ⊢; exact hx2)

theorem computeTrackStats_duration_def {K : Type} [LinearOrderedField K]
    [FloorRing K] (dist : K → K → K → K → K) (p : TrackPoint K)
    (rest : List (TrackPoint K)) :
    (computeTrackStats dist (p :: rest)).totalDurationSec =
      (if 2 ≤ ((p :: rest).foldl (statsStep dist) statsInit).timeSamples.length then
        max 0
          (((((p :: rest).foldl (statsStep dist) statsInit).timeSamples.mergeSort).getLastD 0 -
            ((((p :: rest).foldl (statsStep dist) statsInit).timeSamples.mergeSort).headD 0)) /
            1000)
      else 0) := rfl

theorem computeTrackStats_avg_def {K : Type} [LinearOrderedField K]
    [FloorRing K] (dist : K → K → K → K → K) (p : TrackPoint K)
    (rest : List (TrackPoint K)) :
    (computeTrackStats dist (p :: rest)).avgSpeedKmh =
      (if 0 < (computeTrackStats dist (p :: rest)).totalDurationSec then
        (computeTrackStats dist (p :: rest)).totalDistanceKm /
          ((computeTrackStats dist (p :: rest)).totalDurationSec / 3600)
      else 0) := rfl

/-- C5: totalDurationSec is the maximum minus the minimum of the finite
timestamps, converted from milliseconds to seconds (0 with fewer than two
finite timestamps), and avgSpeedKmh is totalDistanceKm over the duration in
hours when the duration is positive and 0 when the duration is 0. -/
theorem C5_duration_avg :
    ∀ (K : Type) [LinearOrderedField K] [FloorRing K]
      (dist : K → K → K → K → K) (pts : List (TrackPoint K)),
      ((pts.filterMap (fun p => p.time)).length < 2 →
        (computeTrackStats dist pts).totalDurationSec = 0) ∧
      (2 ≤ (pts.filterMap (fun p => p.time)).length →
        ∃ M m, M ∈ pts.filterMap (fun p => p.time) ∧
          m ∈ pts.filterMap (fun p => p.time) ∧
          (∀ x ∈ pts.filterMap (fun p => p.time), m ≤ x ∧ x ≤ M) ∧
          (computeTrackStats dist pts).totalDurationSec = (M - m) / 1000) ∧
      (0 < (computeTrackStats dist pts).totalDurationSec →
        (computeTrackStats dist pts).avgSpeedKmh =
          (computeTrackStats dist pts).totalDistanceKm /
            ((computeTrackStats dist pts).totalDurationSec / 3600)) ∧
      ((computeTrackStats dist pts).totalDurationSec = 0 →
        (computeTrackStats dist pts).avgSpeedKmh = 0) := by
  intro K instF instR dist pts
  cases pts with
  | nil =>
    refine ⟨fun _ => rfl, ?_, ?_, fun _ => rfl⟩
    · intro h
      simp at h
    · intro h
      have hz : (computeTrackStats dist ([] : List (TrackPoint K))).totalDurationSec = 0 := rfl
      rw [hz] at h
      exact absurd h (lt_irrefl 0)
  | cons p rest =>
    have hts : ((p :: rest).foldl (statsStep dist) statsInit).timeSamples =
        (p :: rest).filterMap (fun p => p.time) := by
      rw [foldl_timeSamples]
      rfl
    constructor
    · intro hlen
      rw [computeTrackStats_duration_def, hts, if_neg (not_le.mpr hlen)]
    constructor
    · intro hlen
      set ts := (p :: rest).filterMap (fun p => p.time) with hts2
      have htsne : ts ≠ [] := by
        intro h
        rw [h] at hlen
        simp at hlen
      have hperm : (ts.mergeSort).Perm ts := List.mergeSort_perm ts _
      have hsort : List.Sorted (· ≤ ·) ts.mergeSort := List.sorted_mergeSort' ts
      have hmsne : ts.mergeSort ≠ [] := by
        intro h
        have hlen2 := hperm.length_eq
        rw [h] at hlen2
        simp at hlen2
        exact htsne (List.length_eq_zero.mp hlen2.symm)
      refine ⟨ts.mergeSort.getLastD 0, ts.mergeSort.headD 0, ?_, ?_, ?_, ?_⟩
      · exact hperm.mem_iff.mp (getLastD_mem ts.mergeSort hmsne 0)
      · have hh : ts.mergeSort.headD 0 ∈ ts.mergeSort := by
          cases hm : ts.mergeSort with
          | nil => exact absurd hm hmsne
          | cons a t => simp
        exact hperm.mem_iff.mp hh
      · intro x hx
        have hx2 : x ∈ ts.mergeSort := hperm.mem_iff.mpr hx
        exact ⟨sorted_headD_le ts.mergeSort hsort 0 x hx2,
          le_sorted_getLastD ts.mergeSort hsort 0 x hx2⟩
      · rw [computeTrackStats_duration_def, hts, if_pos hlen]
        have hmm : ts.mergeSort.headD 0 ≤ ts.mergeSort.getLastD 0 := by
          have hh : ts.mergeSort.headD 0 ∈ ts.mergeSort := by
            cases hm : ts.mergeSort with
            | nil => exact absurd hm hmsne
            | cons a t => simp
          exact le_sorted_getLastD ts.mergeSort hsort 0 _ hh
        exact max_eq_right (div_nonneg (by linarith) (by norm_num))
    constructor
    · intro hpos
      rw [computeTrackStats_avg_def, if_pos hpos]
    · intro hz
      rw [computeTrackStats_avg_def, if_neg (by rw [hz]; exact lt_irrefl 0)]

theorem C5_duration_avg_witness :
    (computeTrackStats qdist0 ([] : List (TrackPoint ℚ))).totalDurationSec = 0 :=
  (C5_duration_avg ℚ qdist0 []).1 (by decide)

theorem foldl_max_le {K : Type} [LinearOrder K] (l : List K) :
    ∀ a : K, a ≤ l.foldl max a ∧ ∀ x ∈ l, x ≤ l.foldl max a := by
  induction l with
  | nil => simp
  | cons b t ih =>
    intro a
    constructor
    · exact le_trans (le_max_left a b) (ih (max a b)).1
    · intro x hx
      rcases List.mem_cons.mp hx with rfl | hx2
      · exact le_trans (le_max_right a x) (ih (max a x)).1
      · exact (ih (max a b)).2 x hx2

theorem foldl_max_mem {K : Type} [LinearOrder K] (l : List K) :
    ∀ a : K, l.foldl max a = a ∨ l.foldl max a ∈ l := by
  induction l with
  | nil => intro a; left; rfl
  | cons b t ih =>
    intro a
    rcases ih (max a b) with h | h
    · rw [List.foldl_cons, h]
      rcases le_or_lt b a with hba | hba
      · left; exact max_eq_left hba
      · right
        rw [max_eq_right hba.le]
        exact List.mem_cons_self b t
    · right
      rw [List.foldl_cons]
      exact List.mem_cons_of_mem b h

theorem specSpeedSamples_nonneg {K : Type} [LinearOrderedField K]
    (dist : K → K → K → K → K) (hd : ∀ a b c d, 0 ≤ dist a b c d) :
    ∀ pts : List (TrackPoint K), ∀ x ∈ specSpeedSamples dist pts, 0 ≤ x := by
  intro pts
  induction pts with
  | nil => simp [specSpeedSamples]
  | cons p rest ih =>
    cases rest with
    | nil => simp [specSpeedSamples]
    | cons q rest2 =>
      intro x hx
      have hx2 : x ∈ (match p.time, q.time with
          | some tp, some tq =>
            if 0 < (tq - tp) / 3600000 then
              [dist p.lat p.lon q.lat q.lon / ((tq - tp) / 3600000)]
            else []
          | _, _ => []) ++ specSpeedSamples dist (q :: rest2) := hx
      rcases List.mem_append.mp hx2 with h | h
      · cases hp : p.time with
        | none => rw [hp] at h; simp at h
        | some tp =>
          cases hq : q.time with
          | none => rw [hp, hq] at h; simp at h
          | some tq =>
            rw [hp, hq] at h
            simp at h
            obtain ⟨hdt, rfl⟩ := h
            exact div_nonneg (hd _ _ _ _) (div_nonneg (by linarith) (by norm_num))
      · exact ih x h

theorem haversine_example :
    haversineDistance 0 0 0 (1 / 1000) = 6371 * (Real.pi / 180000) := by
  have hpi := Real.pi_pos
  have hlt : Real.pi / 360000 < Real.pi / 2 :=
    div_lt_div_of_pos_left hpi (by norm_num) (by norm_num)
  have hpos : 0 < Real.pi / 360000 := by positivity
  have hsin : 0 ≤ Real.sin (Real.pi / 360000) :=
    Real.sin_nonneg_of_nonneg_of_le_pi hpos.le (by linarith)
  have hcos : 0 < Real.cos (Real.pi / 360000) :=
    Real.cos_pos_of_mem_Ioo ⟨by linarith, hlt⟩
  simp only [haversineDistance, toRad]
  rw [show ((0:ℝ) - 0) * Real.pi / 180 / 2 = 0 by ring]
  rw [show ((0:ℝ)) * Real.pi / 180 = 0 by ring]
  rw [show ((1/1000 : ℝ) - 0) * Real.pi / 180 / 2 = Real.pi / 360000 by ring]
  rw [Real.sin_zero, Real.cos_zero]
  rw [show (0:ℝ) * 0 + 1 * 1 * (Real.sin (Real.pi / 360000) * Real.sin (Real.pi / 360000)) =
    Real.sin (Real.pi / 360000) * Real.sin (Real.pi / 360000) by ring]
  rw [Real.sqrt_mul_self hsin]
  rw [show 1 - Real.sin (Real.pi / 360000) * Real.sin (Real.pi / 360000) =
      Real.cos (Real.pi / 360000) * Real.cos (Real.pi / 360000) by
    have h := Real.sin_sq_add_cos_sq (Real.pi / 360000)
    nlinarith [h]]
  rw [Real.sqrt_mul_self hcos.le]
  unfold jsAtan2
  rw [if_pos hcos]
  rw [← Real.tan_eq_sin_div_cos, Real.arctan_tan (by linarith) hlt]
  ring

theorem exampleTrack_maxSpeed :
    (computeTrackStats haversineDistance exampleTrack).maxSpeedKmh =
      6371 * Real.pi / 50 := by
  have hb : (computeTrackStats haversineDistance exampleTrack).maxSpeedKmh =
      (exampleTrack.foldl (statsStep haversineDistance) statsInit).maxSpeedKmh := rfl
  rw [hb]
  show ((([⟨0, 0, some 0⟩, ⟨0, 1 / 1000, some 1000⟩] : List (TrackPoint ℝ))).foldl
      (statsStep haversineDistance) statsInit).maxSpeedKmh = 6371 * Real.pi / 50
  rw [List.foldl_cons, List.foldl_cons, List.foldl_nil]
  simp only [statsStep, statsInit]
  norm_num
  rw [haversine_example]
  rw [if_pos (by positivity : (0:ℝ) < 6371 * (Real.pi / 180000))]
  ring

theorem computeTrackStats_maxSpeed_def {K : Type} [LinearOrderedField K]
    [FloorRing K] (dist : K → K → K → K → K) (p : TrackPoint K)
    (rest : List (TrackPoint K)) :
    (computeTrackStats dist (p :: rest)).maxSpeedKmh =
      ((p :: rest).foldl (statsStep dist) statsInit).maxSpeedKmh := rfl

/-- C4: maxSpeedKmh is the maximum of the pairwise speed samples over the
consecutive pairs with both timestamps finite and strictly positive elapsed
time (other pairs contribute no sample), 0 when no pair qualifies, and no
upper cap is applied: on the 2-point example track at (0,0) and (0,0.001)
one second apart, with the real haversine distance, the reported max speed
lies strictly between 400 and 401 km per hour. -/
theorem C4_max_speed :
    (∀ (K : Type) [LinearOrderedField K] [FloorRing K]
      (dist : K → K → K → K → K) (pts : List (TrackPoint K)),
      (∀ a b c d, 0 ≤ dist a b c d) →
      ((specSpeedSamples dist pts = [] →
          (computeTrackStats dist pts).maxSpeedKmh = 0) ∧
        (specSpeedSamples dist pts ≠ [] →
          (computeTrackStats dist pts).maxSpeedKmh ∈ specSpeedSamples dist pts ∧
            ∀ x ∈ specSpeedSamples dist pts,
              x ≤ (computeTrackStats dist pts).maxSpeedKmh))) ∧
    (400 < (computeTrackStats haversineDistance exampleTrack).maxSpeedKmh ∧
      (computeTrackStats haversineDistance exampleTrack).maxSpeedKmh < 401) := by
  constructor
  · intro K instF instR dist pts hd
    cases pts with
    | nil =>
      exact ⟨fun _ => rfl, fun h => absurd rfl h⟩
    | cons p rest =>
      have hfold : (computeTrackStats dist (p :: rest)).maxSpeedKmh =
          (specSpeedSamples dist (p :: rest)).foldl max 0 := by
        rw [computeTrackStats_maxSpeed_def, List.foldl_cons]
        have h0 : (statsStep dist statsInit p).maxSpeedKmh = 0 := rfl
        rw [foldl_maxSpeed dist rest (statsStep dist statsInit p) p rfl rfl, h0]
      constructor
      · intro hnil
        rw [hfold, hnil]
        rfl
      · intro hne
        rw [hfold]
        refine ⟨?_, (foldl_max_le _ 0).2⟩
        rcases foldl_max_mem (specSpeedSamples dist (p :: rest)) 0 with h | h
        · obtain ⟨s0, tl, heq⟩ := List.exists_cons_of_ne_nil hne
          rw [heq] at h ⊢
          have hb := (foldl_max_le (s0 :: tl) 0).2 s0 (List.mem_cons_self s0 tl)
          rw [h] at hb
          have hnn := specSpeedSamples_nonneg dist hd (p :: rest) s0
            (by rw [heq]; exact List.mem_cons_self s0 tl)
          have hs0 : s0 = 0 := le_antisymm hb hnn
          rw [h, ← hs0]
          exact List.mem_cons_self s0 tl
        · exact h
  · rw [exampleTrack_maxSpeed]
    have h1 := Real.pi_gt_d6
    have h2 := Real.pi_lt_d6
    constructor <;> nlinarith

theorem C4_max_speed_witness :
    (computeTrackStats qdist0 ([] : List (TrackPoint ℚ))).maxSpeedKmh = 0 :=
  (C4_max_speed.1 ℚ qdist0 [] (fun _ _ _ _ => le_refl 0)).1 rfl

theorem lookupA_cons (k v : ℕ) (l : List (ℕ × ℕ)) (j : ℕ) :
    lookupA ((k, v) :: l) j = if k = j then some v else lookupA l j := by
  unfold lookupA
  by_cases h : k = j
  · have hp : (fun p : ℕ × ℕ => decide (p.1 = j)) (k, v) = true := by simp [h]
    rw [List.find?_cons_of_pos l hp, if_pos h]
    rfl
  · have hp : ¬(fun p : ℕ × ℕ => decide (p.1 = j)) (k, v) = true := by simp [h]
    rw [List.find?_cons_of_neg l hp, if_neg h]

theorem lookupPending_cons (b s t : ℕ) (l : List (ℕ × ℕ × ℕ)) (bid seg : ℕ) :
    lookupPending ((b, s, t) :: l) bid seg =
      if b = bid ∧ s = seg then some t else lookupPending l bid seg := by
  unfold lookupPending
  by_cases h : b = bid ∧ s = seg
  · have hp : (fun e : ℕ × ℕ × ℕ => decide (e.1 = bid ∧ e.2.1 = seg)) (b, s, t) = true := by
      simp [h.1, h.2]
    rw [List.find?_cons_of_pos l hp, if_pos h]
    rfl
  · have hp : ¬(fun e : ℕ × ℕ × ℕ => decide (e.1 = bid ∧ e.2.1 = seg)) (b, s, t) = true := by
      simpa using h
    rw [List.find?_cons_of_neg l hp, if_neg h]

theorem rcStep_complete_counters (st : RCState) (s b : ℕ) :
    (rcStep st (.complete s b)).counters = st.counters := by
  simp only [rcStep]
  cases hlp : lookupPending st.pending b s with
  | none => rfl
  | some tag =>
    dsimp only
    split_ifs <;> rfl

theorem rcStep_complete_pending (st : RCState) (s b : ℕ) :
    (rcStep st (.complete s b)).pending = st.pending := by
  simp only [rcStep]
  cases hlp : lookupPending st.pending b s with
  | none => rfl
  | some tag =>
    dsimp only
    split_ifs <;> rfl

theorem rcRun_applied_preserve (b1 : ℕ) :
    ∀ (tr : List REv) (st : RCState) (seg : ℕ),
      (∀ s, REv.complete s b1 ∉ tr) →
      lookupA st.applied seg ≠ some b1 →
      lookupA (tr.foldl rcStep st).applied seg ≠ some b1 := by
  intro tr
  induction tr with
  | nil => intro st seg _ h; exact h
  | cons e rest ih =>
    intro st seg hno h
    rw [List.foldl_cons]
    refine ih (rcStep st e) seg (fun s hs => hno s (List.mem_cons_of_mem e hs)) ?_
    cases e with
    | issue s b => exact h
    | reset => exact h
    | complete s b =>
      have hb : b ≠ b1 := by
        intro hbe
        exact hno s (by rw [hbe]; exact List.mem_cons_self _ _)
      simp only [rcStep]
      cases hlp : lookupPending st.pending b s with
      | none => exact h
      | some tag =>
        dsimp only
        split_ifs with hc
        · rw [show ({ st with applied := (s, b) :: st.applied } : RCState).applied =
            (s, b) :: st.applied from rfl, lookupA_cons]
          split_ifs with hseg
          · intro hcontra
            exact hb (Option.some_injective _ hcontra)
          · exact h
        · exact h

theorem rcRun_counter_mono (seg : ℕ) :
    ∀ (tr : List REv) (st : RCState) (c : ℕ),
      REv.reset ∉ tr →
      lookupA st.counters seg = some c →
      ∃ c2, lookupA (tr.foldl rcStep st).counters seg = some c2 ∧ c ≤ c2 := by
  intro tr
  induction tr with
  | nil => intro st c _ h; exact ⟨c, h, le_refl c⟩
  | cons e rest ih =>
    intro st c hno h
    rw [List.foldl_cons]
    have hno2 : REv.reset ∉ rest := fun hr => hno (List.mem_cons_of_mem e hr)
    cases e with
    | issue s b =>
      by_cases hs : s = seg
      · subst hs
        have hc : lookupA (rcStep st (.issue s b)).counters s =
            some (c + 1) := by
          show lookupA ((s, (lookupA st.counters s).getD 0 + 1) :: st.counters) s =
            some (c + 1)
          rw [lookupA_cons, if_pos rfl, h, Option.getD_some]
        obtain ⟨c2, hc2, hle⟩ := ih (rcStep st (.issue s b)) (c + 1) hno2 hc
        exact ⟨c2, hc2, le_trans (Nat.le_succ c) hle⟩
      · have hc : lookupA (rcStep st (.issue s b)).counters seg =
            lookupA st.counters seg := by
          show lookupA ((s, (lookupA st.counters s).getD 0 + 1) :: st.counters) seg =
            lookupA st.counters seg
          rw [lookupA_cons, if_neg hs]
        exact ih (rcStep st (.issue s b)) c hno2 (by rw [hc]; exact h)
    | complete s b =>
      exact ih (rcStep st (.complete s b)) c hno2
        (by rw [rcStep_complete_counters]; exact h)
    | reset => exact absurd (List.mem_cons_self _ _) hno
  
theorem rcRun_pending_stable (b1 seg : ℕ) :
    ∀ (tr : List REv) (st : RCState),
      (∀ s, REv.issue s b1 ∉ tr) →
      lookupPending (tr.foldl rcStep st).pending b1 seg =
        lookupPending st.pending b1 seg := by
  intro tr
  induction tr with
  | nil => intro st _; rfl
  | cons e rest ih =>
    intro st hno
    rw [List.foldl_cons,
      ih (rcStep st e) (fun s hs => hno s (List.mem_cons_of_mem e hs))]
    cases e with
    | issue s b =>
      have hb : b ≠ b1 := by
        intro hbe
        exact hno s (by rw [hbe]; exact List.mem_cons_self _ _)
      show lookupPending ((b, s, (lookupA st.counters s).getD 0 + 1) ::
        st.pending) b1 seg = lookupPending st.pending b1 seg
      rw [lookupPending_cons, if_neg (fun hcc => hb hcc.1)]
    | complete s b => rw [rcStep_complete_pending]
    | reset => rfl

/-- C1 counterexample: builds 10 and 20 are issued for segment 0 with
sequence numbers S1 = 1 and S2 = 2; build 20 completes (and is applied);
then a segment-gap change resets the per-session segments map, a fresh
build 30 is issued (capturing tag 1 again) and completes; finally the stale
build 10, completing after build 20, passes the counter check (the stored
counter equals its captured tag 1 again) and is applied, overwriting the
session state - so a build tagged S1 < S2 that completes after the S2 build
can overwrite state, violating the claim as stated. -/
theorem C1_counterexample :
    lookupPending (rcRun [.issue 0 10, .issue 0 20]).pending 10 0 = some 1 ∧
    lookupPending (rcRun [.issue 0 10, .issue 0 20]).pending 20 0 = some 2 ∧
    lookupA (rcRun [.issue 0 10, .issue 0 20, .complete 0 20, .reset,
      .issue 0 30, .complete 0 30, .complete 0 10]).applied 0 = some 10 := by
  refine ⟨by decide, by decide, by decide⟩

/-- C1 (amended): the staleness-discard property holds in the absence of a
counter reset: if build b1 is issued for segment seg, then later (with no
segment-gap change or merge resetting the counters in between) build b2 is
issued for the same segment and completes, and only then the b1 build
completes, the b1 result is discarded and is never the applied overlay.
With a reset in between, the per-key counters restart from zero and a stale
captured tag can collide with the fresh counter value, as the
counterexample shows. -/
theorem C1_staleness_amended (A M E : List REv) (seg b1 b2 : ℕ)
    (_hb : b1 ≠ b2)
    (hM2 : REv.issue seg b2 ∈ M)
    (_hMc : REv.complete seg b2 ∈ M)
    (hMr : REv.reset ∉ M)
    (hA : ∀ s, REv.issue s b1 ∉ A ∧ REv.complete s b1 ∉ A)
    (hM1 : ∀ s, REv.issue s b1 ∉ M ∧ REv.complete s b1 ∉ M)
    (hE : ∀ s, REv.issue s b1 ∉ E ∧ REv.complete s b1 ∉ E) :
    lookupA (rcRun (A ++ REv.issue seg b1 :: (M ++ REv.complete seg b1 :: E))).applied
      seg ≠ some b1 := by
  unfold rcRun
  rw [List.foldl_append, List.foldl_cons, List.foldl_append, List.foldl_cons]
  set st0 : RCState := A.foldl rcStep ⟨[], [], []⟩ with hst0
  set st1 : RCState := rcStep st0 (.issue seg b1) with hst1
  set stM : RCState := M.foldl rcStep st1 with hstM
  -- the captured tag of b1
  set t1 : ℕ := (lookupA st0.counters seg).getD 0 + 1 with ht1
  have hc1 : lookupA st1.counters seg = some t1 := by
    rw [hst1]
    show lookupA ((seg, t1) :: st0.counters) seg = some t1
    rw [lookupA_cons, if_pos rfl]
  have hp1 : lookupPending st1.pending b1 seg = some t1 := by
    rw [hst1]
    show lookupPending ((b1, seg, t1) :: st0.pending) b1 seg = some t1
    rw [lookupPending_cons, if_pos ⟨rfl, rfl⟩]
  -- pending entry for b1 survives M untouched
  have hpM : lookupPending stM.pending b1 seg = some t1 := by
    rw [hstM, rcRun_pending_stable b1 seg M st1 (fun s => (hM1 s).1)]
    exact hp1
  -- the counter for seg strictly exceeds t1 after the issue of b2 inside M
  obtain ⟨M1, M2, hMeq⟩ := List.append_of_mem hM2
  have hMr1 : REv.reset ∉ M1 := fun hr => hMr (by rw [hMeq]; simp [hr])
  have hMr2 : REv.reset ∉ M2 := fun hr => hMr (by rw [hMeq]; simp [hr])
  have hcM : ∃ c2, lookupA stM.counters seg = some c2 ∧ t1 + 1 ≤ c2 := by
    rw [hstM, hMeq, List.foldl_append, List.foldl_cons]
    obtain ⟨cA, hcA, hleA⟩ := rcRun_counter_mono seg M1 st1 t1 hMr1 hc1
    have hbump : lookupA (rcStep (M1.foldl rcStep st1) (.issue seg b2)).counters seg =
        some (cA + 1) := by
      show lookupA ((seg, (lookupA (M1.foldl rcStep st1).counters seg).getD 0 + 1) ::
        (M1.foldl rcStep st1).counters) seg = some (cA + 1)
      rw [lookupA_cons, if_pos rfl, hcA, Option.getD_some]
    obtain ⟨c2, hc2, hle2⟩ := rcRun_counter_mono seg M2 _ (cA + 1) hMr2 hbump
    exact ⟨c2, hc2, by omega⟩
  obtain ⟨c2, hc2, hgt⟩ := hcM
  -- the applied overlay is never b1 up to the completion of b1
  have happM : lookupA stM.applied seg ≠ some b1 := by
    rw [hstM]
    apply rcRun_applied_preserve b1 M st1 seg (fun s => (hM1 s).2)
    rw [hst1]
    show lookupA st0.applied seg ≠ some b1
    rw [hst0]
    apply rcRun_applied_preserve b1 A ⟨[], [], []⟩ seg (fun s => (hA s).2)
    show (none : Option ℕ) ≠ some b1
    simp
  -- the completion of b1 is discarded: the stored counter no longer matches
  have hstep : rcStep stM (.complete seg b1) = stM := by
    simp only [rcStep]
    rw [hpM]
    dsimp only
    rw [if_neg (by rw [hc2]; intro heq; have := Option.some_injective _ heq; omega)]
  rw [hstep]
  exact rcRun_applied_preserve b1 E stM seg (fun s => (hE s).2) happM

theorem C1_staleness_amended_witness :
    lookupA (rcRun ([] ++ REv.issue 0 1 :: ([REv.issue 0 2, REv.complete 0 2] ++
      REv.complete 0 1 :: []))).applied 0 ≠ some 1 :=
  C1_staleness_amended [] [REv.issue 0 2, REv.complete 0 2] [] 0 1 2
    (by decide) (by decide) (by decide) (by decide)
    (fun s => ⟨by simp, by simp⟩)
    (fun s => ⟨by simp, by simp⟩)
    (fun s => ⟨by simp, by simp⟩)
